import Mathlib

/-!
Verification of the NanoPass firmware application (src/src/main.rs).

The development embeds the password store, the set_password handler, the
random password generator, the backup codec (CBC encryption with the
double-encryption tag) and the command dispatcher with its export
and import sequences, and proves the specified properties about them.

Parts of the program that live outside src/src/main.rs (the ArrayString
and PasswordItem types of password.rs, the nvm Collection of the SDK, and
the AES block cipher of tinyaes) are modelled from the specification, as
noted on each definition.
-/

namespace NanoPass


/-- Modelled from the spec: a PasswordEntry field of password.rs is a
fixed-capacity string of at most 32 bytes, zero padded, compared byte for
byte.  A byte is a Nat below 256; values only, no char semantics. -/
structure PasswordItem where
  name : List Nat
  pass : List Nat
deriving DecidableEq

/-- Modelled from the spec: ArrayString.set_from_bytes stores the given
bytes and zero-pads the fixed 32-byte capacity. -/
def setFromBytes (b : List Nat) : List Nat :=
  b ++ List.replicate (32 - b.length) 0

/-- Modelled from the spec: PasswordItem.new is an entry with empty
(all-zero-padded) name and password. -/
def PasswordItem.new : PasswordItem :=
  ⟨List.replicate 32 0, List.replicate 32 0⟩

/-- The password store: nvm Collection of PasswordItem with capacity 128,
modelled as a list of entries (length at most 128 is a caller-side
invariant; the Collection itself only enforces capacity on add). -/
abbrev Store := List PasswordItem

/-- Capacity of the nvm Collection in main.rs: 128 entries. -/
def CAPACITY : Nat := 128

/-- Modelled from the spec: Collection.add appends when len is below
capacity, otherwise fails with StorageFull (none) leaving the store
unchanged. -/
def addItem (s : Store) (it : PasswordItem) : Option Store :=
  if s.length < CAPACITY then some (s ++ [it]) else none

/-- Modelled from the spec: Collection.remove removes the entry at the
given index. -/
def removeItem (s : Store) (i : Nat) : Store := s.eraseIdx i

/-- Iterator position combinator of Rust: the index of the first element
satisfying the predicate. -/
def position {α : Type} (p : α → Bool) : List α → Option Nat
  | [] => none
  | x :: xs => if p x then some 0 else (position p xs).map (fun n => n + 1)

/-- The error type of main.rs set_password, extended with the case where
the update path hits StorageFull after the removal and the program
aborts via the panicking branch. -/
inductive SpErr where
  | NoConsent
  | StorageFull
  | Fatal
deriving DecidableEq

/-- Translation of set_password of main.rs.  The consent gate outcome is
the boolean parameter consent; gen is the 16-byte output of the random
password generator used when no explicit password is supplied. -/
def set_password (store : Store) (name : List Nat) (pass : Option (List Nat))
    (consent : Bool) (gen : List Nat) : Except SpErr Store :=
  let new_pass := match pass with
    | some a => a
    | none => setFromBytes gen
  let new_item : PasswordItem := ⟨name, new_pass⟩
  match position (fun x => decide (x.name = name)) store with
  | some index =>
    if consent then
      match addItem (removeItem store index) new_item with
      | some s2 => Except.ok s2
      | none => Except.error SpErr.Fatal
    else Except.error SpErr.NoConsent
  | none =>
    if consent then
      match addItem store new_item with
      | some s2 => Except.ok s2
      | none => Except.error SpErr.StorageFull
    else Except.error SpErr.NoConsent

/-! CBC encryption as used by tinyaes and the backup codec. -/

/-- XOR of two byte blocks, pointwise. -/
def xorBlock (a b : List Nat) : List Nat := List.zipWith Nat.xor a b

/-- Modelled from the spec: the AES-256 block cipher of tinyaes under a
fixed key, an out-of-scope primitive.  It maps 16-byte blocks to 16-byte
blocks and its decryption direction inverts its encryption direction. -/
structure BlockCipher where
  encB : List Nat → List Nat
  decB : List Nat → List Nat
  len_encB : ∀ b, b.length = 16 → (encB b).length = 16
  decB_encB : ∀ b, b.length = 16 → decB (encB b) = b

/-- Modelled from the spec: AES_CBC_encrypt_buffer of tinyaes, block
level.  Each plaintext block is XORed with the previous ciphertext block
(the IV for the first) and then encrypted. -/
def cbcEncBlocks (C : BlockCipher) (iv : List Nat) :
    List (List Nat) → List (List Nat)
  | [] => []
  | b :: bs =>
    let c := C.encB (xorBlock iv b)
    c :: cbcEncBlocks C c bs

/-- Modelled from the spec: AES_CBC_decrypt_buffer of tinyaes, block
level.  Each ciphertext block is decrypted and XORed with the previous
ciphertext block (the IV for the first). -/
def cbcDecBlocks (C : BlockCipher) (iv : List Nat) :
    List (List Nat) → List (List Nat)
  | [] => []
  | c :: cs => xorBlock iv (C.decB c) :: cbcDecBlocks C c cs

/-- Splitting of a byte buffer into a given number of consecutive
16-byte blocks. -/
def toBlocksN : Nat → List Nat → List (List Nat)
  | 0, _ => []
  | n + 1, l => l.take 16 :: toBlocksN n (l.drop 16)

/-- Splitting of a byte buffer (a multiple of 16 bytes long in every
use) into its consecutive 16-byte blocks. -/
def toBlocks (l : List Nat) : List (List Nat) := toBlocksN (l.length / 16) l

/-- CBC encryption of a whole byte buffer (a multiple of 16 bytes long),
as AES_CBC_encrypt_buffer performs it. -/
def cbcEncBuf (C : BlockCipher) (iv l : List Nat) : List Nat :=
  (cbcEncBlocks C iv (toBlocks l)).flatten

/-- CBC decryption of a whole byte buffer, as AES_CBC_decrypt_buffer
performs it. -/
def cbcDecBuf (C : BlockCipher) (iv l : List Nat) : List Nat :=
  (cbcDecBlocks C iv (toBlocks l)).flatten

/-! Backup codec: export-side encoding and import-side decoding of one
entry, translated from the export and import functions of main.rs. -/

/-- Last 16 bytes of a buffer, as the slice buffer[buffer.len() - 16..]
taken by export and import for the tag. -/
def macTag (l : List Nat) : List Nat := l.drop (l.length - 16)

/-- Translation of the encrypted branch of export in main.rs: the reply
for one entry is nonce, then the CBC encryption of name and password
under the session cipher with the nonce as IV, then the last 16 bytes of
a second CBC encryption of that ciphertext with the same key and IV. -/
def encodeRecord (C : BlockCipher) (nonce : List Nat) (it : PasswordItem) :
    List Nat :=
  nonce ++ cbcEncBuf C nonce (it.name ++ it.pass)
    ++ macTag (cbcEncBuf C nonce (cbcEncBuf C nonce (it.name ++ it.pass)))

/-- Translation of the plaintext branch of export in main.rs: name then
password, as-is. -/
def encodePlain (it : PasswordItem) : List Nat := it.name ++ it.pass

/-- Translation of the encrypted branch of one import round in main.rs:
the payload is nonce (16 bytes), ciphertext (64 bytes), tag (16 bytes);
the round recomputes the tag by re-encrypting the ciphertext and rejects
the record (decrypt_failed) when the received tag differs; otherwise the
entry is the CBC decryption split into name and password. -/
def decodeRecord (C : BlockCipher) (data : List Nat) : Option PasswordItem :=
  if (data.drop 80).take 16 =
      macTag (cbcEncBuf C (data.take 16) ((data.drop 16).take 64)) then
    some ⟨(cbcDecBuf C (data.take 16) ((data.drop 16).take 64)).take 32,
          ((cbcDecBuf C (data.take 16) ((data.drop 16).take 64)).drop 32).take 32⟩
  else none

/-- Translation of the plaintext branch of one import round in main.rs:
the payload is the 32-byte name followed by the 32-byte password. -/
def decodePlain (data : List Nat) : PasswordItem :=
  ⟨data.take 32, (data.drop 32).take 32⟩

/-- Record encoding for either mode, as selected by the optional key. -/
def encodeAny (key : Option BlockCipher) (nonce : List Nat)
    (it : PasswordItem) : List Nat :=
  match key with
  | some C => encodeRecord C nonce it
  | none => encodePlain it

/-- Record decoding for either mode; the plaintext mode never fails. -/
def decodeAny (key : Option BlockCipher) (data : List Nat) :
    Option PasswordItem :=
  match key with
  | some C => decodeRecord C data
  | none => some (decodePlain data)

/-- Identity block cipher, a concrete BlockCipher instance used to
evaluate the codec on concrete inputs. -/
def idCipher : BlockCipher where
  encB := fun b => b
  decB := fun b => b
  len_encB := fun _ h => h
  decB_encB := fun _ _ => rfl

/-- Concrete all-zero nonce. -/
def nonce0 : List Nat := List.replicate 16 0

/-- Concrete entry used in witnesses. -/
def item1 : PasswordItem := ⟨List.replicate 32 1, List.replicate 32 2⟩

/-! Protocol: status words, the export and import sequence loops, and the
idle-state command dispatcher of sample_main. -/

/-- Modelled from the spec: the three status words observable at the
transport boundary (StatusWords of the SDK): OK, the generic failure
(Unknown), and the bad instruction error (BadCLA). -/
inductive Status where
  | OK
  | Unknown
  | BadCLA
deriving DecidableEq

/-- Big-endian u32 decoding of four bytes, as u32::from_be_bytes. -/
def beU32 (l : List Nat) : Nat := l.foldl (fun a b => a * 256 + b) 0

/-- Translation of the while loop of import in main.rs.  The inbound
commands are pairs of a command code and its payload (the bytes from
offset 5); each round with code 0x0a decrements the count, decodes one
record, applies replace semantics and replies per the add outcome; a
record that fails authentication replies failure and breaks; any other
code replies BadCLA and breaks.  The result is the final store and the
list of per-round replies. -/
def importLoop (key : Option BlockCipher) (store : Store) (count : Nat)
    (cmds : List (Nat × List Nat)) : Store × List Status :=
  match count with
  | 0 => (store, [])
  | count' + 1 =>
    match cmds with
    | [] => (store, [])
    | (code, payload) :: rest =>
      if code = 10 then
        match decodeAny key payload with
        | some it =>
          let s1 := match position (fun x => decide (x.name = it.name)) store with
            | some i => removeItem store i
            | none => store
          match addItem s1 it with
          | some s2 =>
            let r := importLoop key s2 count' rest
            (r.1, Status.OK :: r.2)
          | none =>
            let r := importLoop key s1 count' rest
            (r.1, Status.Unknown :: r.2)
        | none => (store, [Status.Unknown])
      else (store, [Status.BadCLA])

/-- Translation of the while loop of export in main.rs.  Each entry of
the result is the reply sent for the corresponding inbound command: a
record for code 0x08, and none at all for any other code, which the
source ignores without reply or abort.  Fresh nonces are drawn from the
nonce source in the encrypted rounds. -/
def exportLoop (key : Option BlockCipher) (nonces : Nat → List Nat) (k : Nat)
    (items : List PasswordItem) (cmds : List Nat) : List (Option (List Nat)) :=
  match items with
  | [] => []
  | it :: restItems =>
    match cmds with
    | [] => []
    | cmd :: restCmds =>
      if cmd = 8 then
        match key with
        | some C => some (encodeRecord C (nonces k) it) ::
            exportLoop key nonces (k + 1) restItems restCmds
        | none => some (encodePlain it) ::
            exportLoop key nonces k restItems restCmds
      else none :: exportLoop key nonces k (it :: restItems) restCmds

/-- Translation of PASS_CHARS of main.rs: the lowercase letters, the
uppercase letters and the digits, as byte values, in source order. -/
def PASS_CHARS : List Nat :=
  (List.range 26).map (fun i => i + 97) ++ (List.range 26).map (fun i => i + 65)
    ++ (List.range 10).map (fun i => i + 48)

/-- Translation of generate_random_password of main.rs: each position
draws one value from the random source (the draw sequence rng, each draw
ranged over the alphabet size) and emits the character of PASS_CHARS at
that index. -/
def generate_random_password (rng : Nat → Nat) (size : Nat) : List Nat :=
  (List.range size).map (fun i => PASS_CHARS.getD (rng i) 0)

/-- Translation of the command match of sample_main in main.rs, one
inbound command handled from the idle state.  The session cipher C
stands for AES-256 under the derived key; consent1 and consent2 are the
outcomes of the first and second confirmation prompts; rng feeds the
password generator; seq holds the follow-up commands consumed by
an import sequence, and the result is the new store and the status word of the
reply, or none when the program aborts through the panicking branch of
set_password. -/
def dispatchIdle (C : BlockCipher) (store : Store) (code p1 : Nat)
    (payload : List Nat) (consent1 consent2 : Bool) (rng : Nat → Nat)
    (seq : List (Nat × List Nat)) : Option (Store × Status) :=
  match code with
  | 1 => some (store, Status.OK)
  | 2 => some (store, Status.OK)
  | 3 =>
    let name := payload.take 32
    let pass : Option (List Nat) :=
      if p1 = 0 then some ((payload.drop 32).take 32) else none
    match set_password store name pass consent1
        (generate_random_password rng 16) with
    | Except.ok s2 => some (s2, Status.OK)
    | Except.error SpErr.Fatal => none
    | Except.error _ => some (store, Status.Unknown)
  | 4 =>
    match store.get? (beU32 (payload.take 4)) with
    | some _ => some (store, Status.OK)
    | none => some (store, Status.Unknown)
  | 5 =>
    match store.find? (fun x => decide (x.name = payload.take 32)) with
    | some _ =>
      if consent1 then some (store, Status.OK)
      else some (store, Status.Unknown)
    | none => some (store, Status.Unknown)
  | 6 =>
    match position (fun x => decide (x.name = payload.take 32)) store with
    | some i =>
      if consent1 then some (removeItem store i, Status.OK)
      else some (store, Status.Unknown)
    | none => some (store, Status.Unknown)
  | 7 =>
    if p1 = 0 then
      if consent1 then
        if consent2 then some (store, Status.OK)
        else some (store, Status.Unknown)
      else some (store, Status.Unknown)
    else if p1 = 1 then
      if consent1 then some (store, Status.OK)
      else some (store, Status.Unknown)
    else some (store, Status.Unknown)
  | 8 => some (store, Status.Unknown)
  | 9 =>
    if p1 = 0 then
      if consent1 then
        some ((importLoop none store (beU32 (payload.take 4)) seq).1, Status.OK)
      else some (store, Status.Unknown)
    else if p1 = 1 then
      if consent1 then
        some ((importLoop (some C) store (beU32 (payload.take 4)) seq).1,
          Status.OK)
      else some (store, Status.Unknown)
    else some (store, Status.Unknown)
  | 10 => some (store, Status.Unknown)
  | 11 =>
    if consent1 then
      if consent2 then some ([], Status.OK)
      else some (store, Status.Unknown)
    else some (store, Status.Unknown)
  | 12 => some (store, Status.OK)
  | _ => some (store, Status.BadCLA)

/-! Theorems about the protocol loops and the dispatcher. -/

/-- Concrete second entry used in the import abort scenario. -/
def item3 : PasswordItem := ⟨List.replicate 32 3, List.replicate 32 4⟩

/-- Concrete tampered record: the encrypted record of item1 with its last
tag byte replaced, so the import-side tag check fails. -/
def badRecord : List Nat :=
  (encodeRecord idCipher nonce0 item1).take 95 ++ [255]

lemma position_lt_length {α : Type} {p : α → Bool} :
    ∀ {l : List α} {i : Nat}, position p l = some i → i < l.length := by
  intro l
  induction l with
  | nil => intro i h; simp [position] at h
  | cons x xs ih =>
    intro i h
    simp only [position] at h
    by_cases hx : p x
    · simp [hx] at h
      simp
      omega
    · simp [hx] at h
      obtain ⟨j, hj, rfl⟩ := h
      have := ih hj
      simp
      omega

lemma erase_position_filter (name : List Nat) :
    ∀ (l : List PasswordItem), l.Pairwise (fun a b => a.name ≠ b.name) →
    ∀ i, position (fun x => decide (x.name = name)) l = some i →
    (l.eraseIdx i).filter (fun x => decide (x.name = name)) = [] := by
  intro l
  induction l with
  | nil => intro _ i h; simp [position] at h
  | cons x xs ih =>
    intro hpw i h
    simp only [position] at h
    rw [List.pairwise_cons] at hpw
    by_cases hx : x.name = name
    · simp [hx] at h
      subst h
      simp only [List.eraseIdx_cons_zero]
      rw [List.filter_eq_nil_iff]
      intro a ha
      have : x.name ≠ a.name := hpw.1 a ha
      simp
      intro heq
      exact this (hx.trans heq.symm)
    · simp [hx] at h
      obtain ⟨j, hj, rfl⟩ := h
      simp only [List.eraseIdx_cons_succ, List.filter_cons]
      have hxb : decide (x.name = name) = false := by simp [hx]
      rw [hxb]
      simp only [Bool.false_eq_true, if_false]
      exact ih hpw.2 j hj

/-- C4: with a duplicate-free store of length at most 128, set_password on
an existing name with consent succeeds, the length is unchanged, and
exactly one entry bears the name, carrying the new password. -/
theorem set_password_replace (store : Store) (name newpass gen : List Nat)
    (i : Nat)
    (huniq : store.Pairwise (fun a b => a.name ≠ b.name))
    (hlen : store.length ≤ CAPACITY)
    (hfound : position (fun x => decide (x.name = name)) store = some i) :
    ∃ s2, set_password store name (some newpass) true gen = Except.ok s2 ∧
      s2.length = store.length ∧
      s2.filter (fun x => decide (x.name = name)) =
        [(⟨name, newpass⟩ : PasswordItem)] := by
  have hi := position_lt_length hfound
  have hpos : 0 < store.length := Nat.lt_of_le_of_lt (Nat.zero_le i) hi
  have herase : (store.eraseIdx i).length = store.length - 1 := by
    rw [List.length_eraseIdx]
    simp [hi]
  have hadd : (store.eraseIdx i).length < CAPACITY := by
    rw [herase]
    unfold CAPACITY at hlen ⊢
    omega
  refine ⟨store.eraseIdx i ++ [⟨name, newpass⟩], ?_, ?_, ?_⟩
  · simp only [set_password, hfound, if_true, addItem, removeItem, hadd, if_pos]
  · simp [herase]
    omega
  · rw [List.filter_append, erase_position_filter name store huniq i hfound]
    simp

/-- C5: set_password of a fresh name on a store that already holds 128
entries fails with StorageFull, even with consent. -/
theorem set_password_storage_full (store : Store) (name : List Nat)
    (pass : Option (List Nat)) (gen : List Nat)
    (hlen : store.length = CAPACITY)
    (habs : position (fun x => decide (x.name = name)) store = none) :
    set_password store name pass true gen = Except.error SpErr.StorageFull := by
  have hfull : ¬ store.length < CAPACITY := by omega
  simp only [set_password, habs, if_true, addItem, hfull, if_neg, if_false]

/-- C10: the panicking branch of set_password (add failing right after a
removal) is unreachable whenever the store respects its capacity
invariant: set_password never returns the Fatal outcome. -/
theorem set_password_no_fatal (store : Store) (name : List Nat)
    (pass : Option (List Nat)) (consent : Bool) (gen : List Nat)
    (hlen : store.length ≤ CAPACITY) :
    set_password store name pass consent gen ≠ Except.error SpErr.Fatal := by
  unfold set_password
  cases hfind : position (fun x => decide (x.name = name)) store with
  | some i =>
    have hi := position_lt_length hfind
    have hadd : (store.eraseIdx i).length < CAPACITY := by
      rw [List.length_eraseIdx]
      simp only [hi, if_true]
      unfold CAPACITY at hlen ⊢
      omega
    cases consent with
    | false => simp
    | true =>
      simp only [if_true, addItem, removeItem, hadd, if_pos]
      simp
  | none =>
    cases consent with
    | false => simp
    | true =>
      simp only [if_true, addItem]
      by_cases hfull : store.length < CAPACITY
      · simp [hfull]
      · simp [hfull]

lemma toBlocks_nil : toBlocks [] = [] := rfl

lemma toBlocks_step (l : List Nat) (hl : l.length % 16 = 0) (h : l ≠ []) :
    toBlocks l = l.take 16 :: toBlocks (l.drop 16) := by
  have hpos : 0 < l.length := List.length_pos.mpr h
  have h16 : 16 ≤ l.length := by omega
  unfold toBlocks
  have hdiv : l.length / 16 = (l.drop 16).length / 16 + 1 := by
    rw [List.length_drop]
    omega
  rw [hdiv]
  rfl

lemma length_xorBlock (a b : List Nat) :
    (xorBlock a b).length = min a.length b.length :=
  List.length_zipWith _ _ _

lemma xorBlock_cancel :
    ∀ (a b : List Nat), a.length = b.length → xorBlock a (xorBlock a b) = b := by
  intro a
  induction a with
  | nil =>
    intro b h
    cases b with
    | nil => rfl
    | cons y ys => simp at h
  | cons x xs ih =>
    intro b h
    cases b with
    | nil => simp at h
    | cons y ys =>
      simp only [xorBlock, List.zipWith_cons_cons] at *
      congr 1
      · exact Nat.xor_cancel_left x y
      · simp at h
        exact ih ys h

lemma flatten_length_16 :
    ∀ bs : List (List Nat), (∀ b ∈ bs, b.length = 16) →
    bs.flatten.length = 16 * bs.length := by
  intro bs
  induction bs with
  | nil => simp
  | cons b bs ih =>
    intro h
    rw [List.flatten_cons, List.length_append, h b (by simp),
      ih (fun x hx => h x (by simp [hx]))]
    simp only [List.length_cons]
    ring

theorem flatten_toBlocks (l : List Nat) (hl : l.length % 16 = 0) :
    (toBlocks l).flatten = l := by
  by_cases h : l = []
  · subst h
    simp [toBlocks_nil]
  · have hpos : 0 < l.length := List.length_pos.mpr h
    rw [toBlocks_step l hl h, List.flatten_cons,
      flatten_toBlocks (l.drop 16) (by rw [List.length_drop]; omega),
      List.take_append_drop]
termination_by l.length
decreasing_by
  have : 0 < l.length := List.length_pos.mpr h
  rw [List.length_drop]
  omega

theorem toBlocks_len16 (l : List Nat) (hl : l.length % 16 = 0) :
    ∀ b ∈ toBlocks l, b.length = 16 := by
  by_cases h : l = []
  · subst h
    simp [toBlocks_nil]
  · have hpos : 0 < l.length := List.length_pos.mpr h
    have h16 : 16 ≤ l.length := by omega
    rw [toBlocks_step l hl h]
    intro b hb
    rcases List.mem_cons.mp hb with rfl | hb2
    · rw [List.length_take]
      omega
    · exact toBlocks_len16 (l.drop 16) (by rw [List.length_drop]; omega) b hb2
termination_by l.length
decreasing_by
  have : 0 < l.length := List.length_pos.mpr h
  rw [List.length_drop]
  omega

theorem toBlocks_count (l : List Nat) (hl : l.length % 16 = 0) :
    (toBlocks l).length = l.length / 16 := by
  by_cases h : l = []
  · subst h
    simp [toBlocks_nil]
  · have hpos : 0 < l.length := List.length_pos.mpr h
    have h16 : 16 ≤ l.length := by omega
    rw [toBlocks_step l hl h]
    simp only [List.length_cons]
    rw [toBlocks_count (l.drop 16) (by rw [List.length_drop]; omega),
      List.length_drop]
    omega
termination_by l.length
decreasing_by
  have : 0 < l.length := List.length_pos.mpr h
  rw [List.length_drop]
  omega

theorem toBlocks_flatten (bs : List (List Nat))
    (h : ∀ b ∈ bs, b.length = 16) : toBlocks bs.flatten = bs := by
  induction bs with
  | nil => simp [toBlocks_nil]
  | cons b bs ih =>
    have hb : b.length = 16 := h b (by simp)
    have hbne : b ≠ [] := by
      intro h0
      rw [h0] at hb
      simp at hb
    have hne : (b :: bs).flatten ≠ [] := by
      simp only [List.flatten_cons, ne_eq, List.append_eq_nil]
      tauto
    have hmod : (b :: bs).flatten.length % 16 = 0 := by
      rw [flatten_length_16 (b :: bs) h]
      omega
    rw [List.flatten_cons] at hne hmod ⊢
    rw [toBlocks_step _ hmod hne]
    have ht : (b ++ bs.flatten).take 16 = b := by
      rw [← hb]
      exact List.take_left b bs.flatten
    have hd : (b ++ bs.flatten).drop 16 = bs.flatten := by
      rw [← hb]
      exact List.drop_left b bs.flatten
    rw [ht, hd, ih (fun x hx => h x (by simp [hx]))]

lemma cbcEncBlocks_len16 (C : BlockCipher) :
    ∀ (bs : List (List Nat)) (iv : List Nat), iv.length = 16 →
    (∀ b ∈ bs, b.length = 16) →
    (∀ c ∈ cbcEncBlocks C iv bs, c.length = 16) ∧
      (cbcEncBlocks C iv bs).length = bs.length := by
  intro bs
  induction bs with
  | nil =>
    intro iv _ _
    simp [cbcEncBlocks]
  | cons b bs ih =>
    intro iv hiv hbs
    have hb : b.length = 16 := hbs b (by simp)
    have hxl : (xorBlock iv b).length = 16 := by
      rw [length_xorBlock, hiv, hb]
      simp
    have hcl : (C.encB (xorBlock iv b)).length = 16 := C.len_encB _ hxl
    have htail := ih (C.encB (xorBlock iv b)) hcl
      (fun x hx => hbs x (by simp [hx]))
    constructor
    · intro c hc
      simp only [cbcEncBlocks, List.mem_cons] at hc
      rcases hc with rfl | hc2
      · exact hcl
      · exact htail.1 c hc2
    · simp only [cbcEncBlocks, List.length_cons, htail.2]

lemma cbcDecBlocks_cbcEncBlocks (C : BlockCipher) :
    ∀ (bs : List (List Nat)) (iv : List Nat), iv.length = 16 →
    (∀ b ∈ bs, b.length = 16) →
    cbcDecBlocks C iv (cbcEncBlocks C iv bs) = bs := by
  intro bs
  induction bs with
  | nil =>
    intro iv _ _
    simp [cbcEncBlocks, cbcDecBlocks]
  | cons b bs ih =>
    intro iv hiv hbs
    have hb : b.length = 16 := hbs b (by simp)
    have hxl : (xorBlock iv b).length = 16 := by
      rw [length_xorBlock, hiv, hb]
      simp
    have hcl : (C.encB (xorBlock iv b)).length = 16 := C.len_encB _ hxl
    simp only [cbcEncBlocks, cbcDecBlocks]
    rw [C.decB_encB _ hxl, xorBlock_cancel iv b (by rw [hiv, hb]),
      ih (C.encB (xorBlock iv b)) hcl (fun x hx => hbs x (by simp [hx]))]

lemma cbcEncBuf_length (C : BlockCipher) (iv l : List Nat)
    (hiv : iv.length = 16) (hl : l.length % 16 = 0) :
    (cbcEncBuf C iv l).length = l.length := by
  unfold cbcEncBuf
  rw [flatten_length_16 _ (cbcEncBlocks_len16 C (toBlocks l) iv hiv
      (toBlocks_len16 l hl)).1,
    (cbcEncBlocks_len16 C (toBlocks l) iv hiv (toBlocks_len16 l hl)).2,
    toBlocks_count l hl]
  omega

lemma cbcDecBuf_cbcEncBuf (C : BlockCipher) (iv l : List Nat)
    (hiv : iv.length = 16) (hl : l.length % 16 = 0) :
    cbcDecBuf C iv (cbcEncBuf C iv l) = l := by
  unfold cbcDecBuf cbcEncBuf
  rw [toBlocks_flatten _ (cbcEncBlocks_len16 C (toBlocks l) iv hiv
      (toBlocks_len16 l hl)).1,
    cbcDecBlocks_cbcEncBlocks C (toBlocks l) iv hiv (toBlocks_len16 l hl),
    flatten_toBlocks l hl]

/-- Layout of the encrypted record: 96 bytes, nonce first, ciphertext
next, and the last 16 bytes of the second encryption last. -/
lemma encodeRecord_parts (C : BlockCipher) (nonce : List Nat)
    (it : PasswordItem) (hn : it.name.length = 32) (hp : it.pass.length = 32)
    (hnonce : nonce.length = 16) :
    (encodeRecord C nonce it).length = 96 ∧
    (encodeRecord C nonce it).take 16 = nonce ∧
    ((encodeRecord C nonce it).drop 16).take 64 =
      cbcEncBuf C nonce (it.name ++ it.pass) ∧
    (encodeRecord C nonce it).drop 80 =
      (cbcEncBuf C nonce (cbcEncBuf C nonce (it.name ++ it.pass))).drop 48 := by
  have hbuf : (it.name ++ it.pass).length = 64 := by
    rw [List.length_append, hn, hp]
  have hct : (cbcEncBuf C nonce (it.name ++ it.pass)).length = 64 := by
    rw [cbcEncBuf_length C nonce _ hnonce (by rw [hbuf]), hbuf]
  have hmac2 : (cbcEncBuf C nonce
      (cbcEncBuf C nonce (it.name ++ it.pass))).length = 64 := by
    rw [cbcEncBuf_length C nonce _ hnonce (by rw [hct]), hct]
  have htag : macTag (cbcEncBuf C nonce
      (cbcEncBuf C nonce (it.name ++ it.pass))) =
      (cbcEncBuf C nonce (cbcEncBuf C nonce (it.name ++ it.pass))).drop 48 := by
    unfold macTag
    rw [hmac2]
  have htaglen : (macTag (cbcEncBuf C nonce
      (cbcEncBuf C nonce (it.name ++ it.pass)))).length = 16 := by
    rw [htag, List.length_drop, hmac2]
  refine ⟨?_, ?_, ?_, ?_⟩
  · unfold encodeRecord
    rw [List.length_append, List.length_append, hnonce, hct, htaglen]
  · unfold encodeRecord
    rw [List.append_assoc, ← hnonce, List.take_left]
  · unfold encodeRecord
    rw [List.append_assoc, ← hnonce, List.drop_left, ← hct, List.take_left]
  · unfold encodeRecord
    have h80 : (80 : Nat) =
        (nonce ++ cbcEncBuf C nonce (it.name ++ it.pass)).length := by
      rw [List.length_append, hnonce, hct]
    rw [h80, List.drop_left, htag]

/-- C2: in encrypted mode the record is exactly 96 bytes laid out as
nonce (16), CBC ciphertext of name then password (64), and the last 16
bytes of the second CBC encryption of the ciphertext under the same key
and nonce. -/
theorem encodeRecord_layout (C : BlockCipher) (nonce : List Nat)
    (it : PasswordItem) (hn : it.name.length = 32) (hp : it.pass.length = 32)
    (hnonce : nonce.length = 16) :
    (encodeRecord C nonce it).length = 96 ∧
    (encodeRecord C nonce it).take 16 = nonce ∧
    ((encodeRecord C nonce it).drop 16).take 64 =
      cbcEncBuf C nonce (it.name ++ it.pass) ∧
    (encodeRecord C nonce it).drop 80 =
      (cbcEncBuf C nonce (cbcEncBuf C nonce (it.name ++ it.pass))).drop 48 :=
  encodeRecord_parts C nonce it hn hp hnonce

/-- C2 witness: the layout theorem evaluated at the identity cipher, the
zero nonce and a concrete entry. -/
theorem encodeRecord_layout_witness :
    (encodeRecord idCipher nonce0 item1).length = 96 ∧
    (encodeRecord idCipher nonce0 item1).take 16 = nonce0 ∧
    ((encodeRecord idCipher nonce0 item1).drop 16).take 64 =
      cbcEncBuf idCipher nonce0 (item1.name ++ item1.pass) ∧
    (encodeRecord idCipher nonce0 item1).drop 80 =
      (cbcEncBuf idCipher nonce0
        (cbcEncBuf idCipher nonce0 (item1.name ++ item1.pass))).drop 48 :=
  encodeRecord_layout idCipher nonce0 item1 (by decide) (by decide) (by decide)

/-- C1: decoding the record produced by encoding under the same cipher
recovers the original entry, in encrypted mode (the recomputed tag
matches and CBC decryption inverts CBC encryption) and in plaintext mode
(identity transfer of name then password). -/
theorem backup_roundtrip (C : BlockCipher) (nonce : List Nat)
    (it : PasswordItem) (hn : it.name.length = 32) (hp : it.pass.length = 32)
    (hnonce : nonce.length = 16) :
    decodeRecord C (encodeRecord C nonce it) = some it ∧
    decodePlain (encodePlain it) = it := by
  have hbuf : (it.name ++ it.pass).length = 64 := by
    rw [List.length_append, hn, hp]
  have hct : (cbcEncBuf C nonce (it.name ++ it.pass)).length = 64 := by
    rw [cbcEncBuf_length C nonce _ hnonce (by rw [hbuf]), hbuf]
  obtain ⟨hlen, htake, hmid, hlast⟩ :=
    encodeRecord_parts C nonce it hn hp hnonce
  have hmac2 : (cbcEncBuf C nonce
      (cbcEncBuf C nonce (it.name ++ it.pass))).length = 64 := by
    rw [cbcEncBuf_length C nonce _ hnonce (by rw [hct]), hct]
  have e1 : (it.name ++ it.pass).take 32 = it.name := by
    rw [← hn]
    exact List.take_left it.name it.pass
  have e2 : ((it.name ++ it.pass).drop 32).take 32 = it.pass := by
    have hd : (it.name ++ it.pass).drop 32 = it.pass := by
      rw [← hn]
      exact List.drop_left it.name it.pass
    rw [hd, ← hp, List.take_length]
  constructor
  · unfold decodeRecord
    rw [htake, hmid, hlast]
    have hrecvlen : ((cbcEncBuf C nonce
        (cbcEncBuf C nonce (it.name ++ it.pass))).drop 48).length = 16 := by
      rw [List.length_drop, hmac2]
    have hrecv : ((cbcEncBuf C nonce
        (cbcEncBuf C nonce (it.name ++ it.pass))).drop 48).take 16 =
        (cbcEncBuf C nonce (cbcEncBuf C nonce (it.name ++ it.pass))).drop 48 := by
      rw [← hrecvlen, List.take_length]
    have hcond : (cbcEncBuf C nonce
        (cbcEncBuf C nonce (it.name ++ it.pass))).drop 48 =
        macTag (cbcEncBuf C nonce (cbcEncBuf C nonce (it.name ++ it.pass))) := by
      unfold macTag
      rw [hmac2]
    rw [hrecv, if_pos hcond]
    have hdec : cbcDecBuf C nonce (cbcEncBuf C nonce (it.name ++ it.pass)) =
        it.name ++ it.pass :=
      cbcDecBuf_cbcEncBuf C nonce _ hnonce (by rw [hbuf])
    rw [hdec, e1, e2]
  · unfold decodePlain encodePlain
    rw [e1, e2]

/-- C1 witness: the round trip evaluated at the identity cipher, the zero
nonce and a concrete entry. -/
theorem backup_roundtrip_witness :
    decodeRecord idCipher (encodeRecord idCipher nonce0 item1) = some item1 ∧
    decodePlain (encodePlain item1) = item1 :=
  backup_roundtrip idCipher nonce0 item1 (by decide) (by decide) (by decide)

/-- C3: a round whose record fails authentication replies failure and
aborts the whole import sequence at once, leaving the store exactly as
the earlier rounds left it; concretely, importing 3 declared items whose
2nd is tampered commits only the 1st, even though the 3rd record would
have decoded correctly. -/
theorem import_auth_fail_aborts :
    (∀ (key : Option BlockCipher) (store : Store) (n : Nat)
      (p : List Nat) (rest : List (Nat × List Nat)),
      decodeAny key p = none →
      importLoop key store (n + 1) ((10, p) :: rest) =
        (store, [Status.Unknown])) ∧
    importLoop (some idCipher) [] 3
      [(10, encodeRecord idCipher nonce0 item1),
       (10, badRecord),
       (10, encodeRecord idCipher nonce0 item3)] =
      ([item1], [Status.OK, Status.Unknown]) ∧
    decodeAny (some idCipher) (encodeRecord idCipher nonce0 item3) =
      some item3 := by
  refine ⟨?_, ?_, ?_⟩
  · intro key store n p rest h
    simp [importLoop, h]
  · decide
  · decide

/-- C3 witness: the abort equation evaluated on the concrete tampered
record over the empty store. -/
theorem import_auth_fail_aborts_witness :
    importLoop (some idCipher) [] 1 [(10, badRecord)] =
      ([], [Status.Unknown]) :=
  import_auth_fail_aborts.1 (some idCipher) [] 0 badRecord [] (by decide)

/-- C6 counterexample: during an export, a command other than 0x08 (here
0x05) is not answered with an error and does not end the sequence: no
reply at all is produced for it, and the following 0x08 round still
delivers the next record. -/
theorem export_other_cmd_cex :
    exportLoop none (fun _ => nonce0) 0 [item1] [5, 8] =
      [none, some (encodePlain item1)] := by
  decide

/-- C6 as amended: commands other than 0x08 received during an export
sequence are silently ignored: each produces no reply and leaves the
remaining items of the sequence unchanged, so the sequence stays in
progress. -/
theorem export_ignores_other_cmds (key : Option BlockCipher)
    (nonces : Nat → List Nat) (k : Nat) (junk : List Nat)
    (hjunk : ∀ c ∈ junk, c ≠ 8) :
    ∀ (items : List PasswordItem) (cmds : List Nat), items ≠ [] →
    exportLoop key nonces k items (junk ++ cmds) =
      List.replicate junk.length none ++ exportLoop key nonces k items cmds := by
  induction junk with
  | nil => intro items cmds _; simp
  | cons c junk ih =>
    intro items cmds hitems
    have hc : c ≠ 8 := hjunk c (by simp)
    cases items with
    | nil => exact absurd rfl hitems
    | cons it restItems =>
      rw [List.cons_append]
      show exportLoop key nonces k (it :: restItems) (c :: (junk ++ cmds)) = _
      rw [exportLoop.eq_def]
      simp only [hc, if_false, List.replicate_succ, List.cons_append]
      rw [ih (fun x hx => hjunk x (by simp [hx])) (it :: restItems) cmds
        (by simp)]
      simp [List.replicate_succ]

/-- C6 amended witness: two ignored commands before a continue round on a
one-entry export. -/
theorem export_ignores_other_cmds_witness :
    exportLoop none (fun _ => nonce0) 0 [item1] ([5, 7] ++ [8]) =
      List.replicate 2 none ++ exportLoop none (fun _ => nonce0) 0 [item1] [8] :=
  export_ignores_other_cmds none (fun _ => nonce0) 0 [5, 7] (by decide)
    [item1] [8] (by decide)

/-- C7 counterexample: the continuation codes 0x08 and 0x0a received in
the idle state are answered with the generic failure status, not with
the bad instruction status that an unrecognised code (here 0xff)
receives. -/
theorem continuation_in_idle_cex :
    dispatchIdle idCipher [] 8 0 [] true true (fun _ => 0) [] =
      some ([], Status.Unknown) ∧
    dispatchIdle idCipher [] 10 0 [] true true (fun _ => 0) [] =
      some ([], Status.Unknown) ∧
    dispatchIdle idCipher [] 255 0 [] true true (fun _ => 0) [] =
      some ([], Status.BadCLA) ∧
    Status.Unknown ≠ Status.BadCLA := by
  refine ⟨rfl, rfl, rfl, by decide⟩

/-- C7 as amended: a continuation code received in the idle state is
answered with the generic failure status (the one the SDK calls Unknown)
and leaves the store unchanged; the bad instruction status is reserved
for codes outside the command table. -/
theorem continuation_in_idle (C : BlockCipher) (store : Store) (p1 : Nat)
    (payload : List Nat) (c1 c2 : Bool) (rng : Nat → Nat)
    (seq : List (Nat × List Nat)) :
    dispatchIdle C store 8 p1 payload c1 c2 rng seq =
      some (store, Status.Unknown) ∧
    dispatchIdle C store 10 p1 payload c1 c2 rng seq =
      some (store, Status.Unknown) :=
  ⟨rfl, rfl⟩

/-- C8: every byte the random password generator emits belongs to the
62-character alphabet PASS_CHARS, whatever values the ranged random
draws take within their stated bound. -/
theorem generated_password_chars (rng : Nat → Nat) (size : Nat)
    (h : ∀ i, rng i < PASS_CHARS.length) :
    generate_random_password rng size ⊆ PASS_CHARS := by
  intro b hb
  simp only [generate_random_password, List.mem_map, List.mem_range] at hb
  obtain ⟨i, _, rfl⟩ := hb
  rw [List.getD_eq_getElem _ _ (h i)]
  exact List.get_mem PASS_CHARS (rng i) (h i)

/-- C8 witness: the generator evaluated on the draw sequence that cycles
through all residues modulo 62, at the default length 16. -/
theorem generated_password_chars_witness :
    generate_random_password (fun i => i % 62) 16 ⊆ PASS_CHARS :=
  generated_password_chars (fun i => i % 62) 16 (fun i => by
    have hlen : PASS_CHARS.length = 62 := by decide
    rw [hlen]
    exact Nat.mod_lt i (by decide))

/-- C9: in the SetPassword command the P1 byte selects auto-generation
for every nonzero value, not only 1: with consent, a fresh name and a
non-full store, any nonzero P1 stores the device-generated 16-character
password (zero padded to 32 bytes), and only P1 equal to 0 stores the
explicit password bytes of the payload. -/
theorem set_password_p1_generates (C : BlockCipher) (store : Store)
    (p1 : Nat) (payload : List Nat) (c2 : Bool) (rng : Nat → Nat)
    (seq : List (Nat × List Nat))
    (habs : position (fun x => decide (x.name = payload.take 32)) store = none)
    (hlen : store.length < CAPACITY) (hp1 : p1 ≠ 0) :
    dispatchIdle C store 3 p1 payload true c2 rng seq =
      some (store ++ [⟨payload.take 32,
        setFromBytes (generate_random_password rng 16)⟩], Status.OK) ∧
    dispatchIdle C store 3 0 payload true c2 rng seq =
      some (store ++ [⟨payload.take 32, (payload.drop 32).take 32⟩],
        Status.OK) := by
  constructor
  · show (match set_password store (payload.take 32)
        (if p1 = 0 then some ((payload.drop 32).take 32) else none) true
        (generate_random_password rng 16) with
      | Except.ok s2 => some (s2, Status.OK)
      | Except.error SpErr.Fatal => none
      | Except.error _ => some (store, Status.Unknown)) = _
    rw [if_neg hp1]
    simp only [set_password, habs, if_true, addItem, hlen, if_pos]
  · show (match set_password store (payload.take 32)
        (if (0 : Nat) = 0 then some ((payload.drop 32).take 32) else none) true
        (generate_random_password rng 16) with
      | Except.ok s2 => some (s2, Status.OK)
      | Except.error SpErr.Fatal => none
      | Except.error _ => some (store, Status.Unknown)) = _
    rw [if_pos rfl]
    simp only [set_password, habs, if_true, addItem, hlen, if_pos]

/-- C9 witness: the P1 dichotomy evaluated on the empty store with a
concrete payload, P1 equal to 5, and the all-zero draw sequence. -/
theorem set_password_p1_generates_witness :
    dispatchIdle idCipher [] 3 5 (List.replicate 64 7) true true
        (fun _ => 0) [] =
      some ([⟨(List.replicate 64 7).take 32,
        setFromBytes (generate_random_password (fun _ => 0) 16)⟩],
        Status.OK) ∧
    dispatchIdle idCipher [] 3 0 (List.replicate 64 7) true true
        (fun _ => 0) [] =
      some ([⟨(List.replicate 64 7).take 32,
        ((List.replicate 64 7).drop 32).take 32⟩], Status.OK) :=
  set_password_p1_generates idCipher [] 5 (List.replicate 64 7) true
    (fun _ => 0) [] (by decide) (by decide) (by decide)

/-- C4 witness: replacing the password of the single entry of a
one-entry store. -/
theorem set_password_replace_witness :
    ∃ s2, set_password [⟨List.replicate 32 9, List.replicate 32 8⟩]
        (List.replicate 32 9) (some (List.replicate 32 5)) true [] =
      Except.ok s2 ∧
      s2.length = 1 ∧
      s2.filter (fun x => decide (x.name = List.replicate 32 9)) =
        [(⟨List.replicate 32 9, List.replicate 32 5⟩ : PasswordItem)] :=
  set_password_replace [⟨List.replicate 32 9, List.replicate 32 8⟩]
    (List.replicate 32 9) (List.replicate 32 5) [] 0 (by simp) (by decide)
    (by decide)

set_option maxRecDepth 4096 in
/-- C5 witness: a 129th add on a store holding 128 entries fails with
StorageFull. -/
theorem set_password_storage_full_witness :
    set_password (List.replicate 128 item1) (List.replicate 32 9) none true
        [] =
      Except.error SpErr.StorageFull :=
  set_password_storage_full (List.replicate 128 item1) (List.replicate 32 9)
    none [] (by decide) (by decide)

/-- C10 witness: set_password on the empty store never takes the Fatal
outcome. -/
theorem set_password_no_fatal_witness :
    set_password [] (List.replicate 32 1) none true [] ≠
      Except.error SpErr.Fatal :=
  set_password_no_fatal [] (List.replicate 32 1) none true [] (by decide)

end NanoPass
